import Mathlib

/-!
Shallow embedding of the statistical-analysis core of the excel-analytics
repository (backend/src/utils/fileAnalysis.js, backend/src/utils/validators.js,
and the chart/statistics helper module), together with theorems settling the
frozen claims about it.

Modelling conventions:
* JavaScript numbers are modelled as exact rationals (`ℚ`).  All arithmetic
  appearing in the verified claims is exact in IEEE doubles at the inputs
  considered, or the claims are stated about real-number semantics.
* A spreadsheet cell is `Cell`: a number, a string, or the empty/undefined
  marker.  `Cell.empty` models both a missing cell (`undefined`) and `null`.
* `Number(string)` coercion is modelled for decimal numeral strings
  (optional sign, integer and fraction digits, surrounding whitespace,
  the empty string coercing to 0).  Hexadecimal and exponent literals are
  outside the model; no verified claim involves them.
* Where JavaScript produces `NaN`/`Infinity` in a way a claim depends on,
  the model tracks it explicitly (`Option` for NaN-propagating sums, `JSv`
  for the adjusted-R² computation, `PRes` for Pearson results).
-/

/-- A spreadsheet cell value: a number, a string, or the null/undefined/empty
marker. -/
inductive Cell where
  | num : ℚ → Cell
  | str : String → Cell
  | empty : Cell
deriving DecidableEq, Repr

/-- Numeric value of a list of decimal digit characters, most significant
first (the usual positional reading). -/
def digitsVal (l : List Char) : ℕ :=
  l.foldl (fun a c => a * 10 + (c.toNat - 48)) 0

/-- Strip leading and trailing whitespace from a character list (the effect of
JavaScript's `String.prototype.trim`, and of `ToNumber` ignoring surrounding
whitespace). -/
def charTrim (l : List Char) : List Char :=
  ((l.dropWhile Char.isWhitespace).reverse.dropWhile Char.isWhitespace).reverse

/-- JavaScript `Number` coercion of a character list, restricted to decimal
numeral strings: surrounding whitespace is ignored, the empty string coerces
to `0`, and an optional sign followed by integer digits, an optional decimal
point and fraction digits (at least one digit overall) parses positionally.
Any other string coerces to `NaN`, modelled as `none`.  Hexadecimal and
exponent literals are outside the model. -/
def jsCharsToNumber (l : List Char) : Option ℚ :=
  let t := charTrim l
  if t = [] then some 0
  else
    let (sign, u) : ℚ × List Char :=
      match t with
      | '-' :: r => (-1, r)
      | '+' :: r => (1, r)
      | r => (1, r)
    let intPart := u.takeWhile Char.isDigit
    let rest := u.dropWhile Char.isDigit
    match rest with
    | [] =>
        if intPart = [] then none
        else some (sign * (digitsVal intPart : ℚ))
    | '.' :: fr =>
        if fr.all Char.isDigit && !(intPart = [] && fr = []) then
          some (sign * ((digitsVal intPart : ℚ) +
            (digitsVal fr : ℚ) / (10 : ℚ) ^ fr.length))
        else none
    | _ => none

/-- JavaScript `Number(string)` coercion (see `jsCharsToNumber`). -/
def jsStringToNumber (s : String) : Option ℚ :=
  jsCharsToNumber s.toList

/-- JavaScript `Number(value)` on a cell: numbers pass through, strings are
parsed (`jsStringToNumber`), and `undefined`/missing coerces to `NaN`
(`none`). -/
def jsToNumOpt (c : Cell) : Option ℚ :=
  match c with
  | Cell.num q => some q
  | Cell.str s => jsStringToNumber s
  | Cell.empty => none

/-- `validators.js` `isNumber`: a number, or a string that after removing all
commas and dollar signs and one trailing percent sign, then trimming, passes
`!isNaN && isFinite` — modelled as successful decimal parsing.  The global
regex replacements of the single characters `,` and `$` are character
filters; `/%$/` removes one trailing percent sign. -/
def isNumber (c : Cell) : Bool :=
  match c with
  | Cell.num _ => true
  | Cell.str s =>
      let noComma := s.toList.filter (fun ch => !(ch == ','))
      let noDollar := noComma.filter (fun ch => !(ch == '$'))
      let noPercent :=
        match noDollar.getLast? with
        | some '%' => noDollar.dropLast
        | _ => noDollar
      (jsCharsToNumber (charTrim noPercent)).isSome
  | Cell.empty => false

/-- The digit shape of a string: every decimal digit becomes `d`, all other
characters stay.  The six date regexes of `validators.js` are exact-shape
matches. -/
def digitShape (s : String) : String :=
  String.mk (s.toList.map (fun c => if c.isDigit then 'd' else c))

/-- `validators.js` `isDate`: a string matching one of the six literal date
patterns (`YYYY-MM-DD`, `MM/DD/YYYY`, `MM-DD-YYYY`, `YYYY/MM/DD`,
`DD.MM.YYYY`, `YYYY.MM.DD`).  The source additionally requires `new Date(value)`
to parse; calendar validity is not modelled — no verified claim depends on a
pattern-matching string that is not a parseable date. -/
def isDate (c : Cell) : Bool :=
  match c with
  | Cell.num _ => false
  | Cell.empty => false
  | Cell.str s =>
      [ "dddd-dd-dd", "dd/dd/dddd", "dd-dd-dddd",
        "dddd/dd/dd", "dd.dd.dddd", "dddd.dd.dd" ].contains (digitShape s)

/-- Inferred column type; the source encodes `text` as the literal `'string'`. -/
inductive DType where
  | number
  | date
  | text
deriving DecidableEq, Repr

/-- A cell that survives the non-empty filter
`val !== null && val !== undefined && val !== ''`. -/
def nonEmptyCell (c : Cell) : Bool :=
  match c with
  | Cell.empty => false
  | Cell.str s => !(s == "")
  | Cell.num _ => true

/-- `fileAnalysis.js` `detectDataType`: sample the first up-to-100 non-empty
values; empty sample is text; number wins at ≥ 80 %, then date at ≥ 80 %,
else text. -/
def detectDataType (data : List Cell) : DType :=
  let sample := (data.filter nonEmptyCell).take 100
  if sample.length = 0 then DType.text
  else
    let numberCount := (sample.filter isNumber).length
    let dateCount := (sample.filter isDate).length
    let numberPercentage : ℚ := (numberCount : ℚ) / (sample.length : ℚ) * 100
    let datePercentage : ℚ := (dateCount : ℚ) / (sample.length : ℚ) * 100
    if numberPercentage ≥ 80 then DType.number
    else if datePercentage ≥ 80 then DType.date
    else DType.text

/-- Type inference as the specification words it: the fraction of the sample
recognized as numeric is at least 80 % (`count/len ≥ 4/5`, stated over
naturals), else the date fraction, else text; an empty sample yields text. -/
def detectDataTypeSpec (data : List Cell) : DType :=
  let sample := (data.filter nonEmptyCell).take 100
  if sample = [] then DType.text
  else if 5 * (sample.filter isNumber).length ≥ 4 * sample.length then DType.number
  else if 5 * (sample.filter isDate).length ≥ 4 * sample.length then DType.date
  else DType.text

theorem percent_ge_iff (c L : ℕ) (hL : 0 < L) :
    ((c : ℚ) / (L : ℚ) * 100 ≥ 80) ↔ 5 * c ≥ 4 * L := by
  have hL' : (0 : ℚ) < (L : ℚ) := by exact_mod_cast hL
  rw [ge_iff_le, div_mul_eq_mul_div, le_div_iff₀ hL']
  constructor
  · intro h
    have h2 : (4 * L : ℚ) ≤ (5 * c : ℚ) := by nlinarith
    exact_mod_cast h2
  · intro h
    have h2 : (4 * L : ℚ) ≤ (5 * c : ℚ) := by exact_mod_cast h
    nlinarith

/-- Claim C4: type inference samples the first up-to-100 non-empty values and
returns `number` when the numeric fraction is at least 80 %, otherwise `date`
when the date fraction is at least 80 %, otherwise `text` (empty sample yields
text); in particular the sample `["1","2","3.5","N/A"]`, with 75 % numeric,
infers text. -/
theorem detectDataType_spec :
    (∀ data : List Cell, detectDataType data = detectDataTypeSpec data) ∧
    detectDataType [Cell.str "1", Cell.str "2", Cell.str "3.5", Cell.str "N/A"]
      = DType.text := by
  have key : ∀ data : List Cell, detectDataType data = detectDataTypeSpec data := by
    intro data
    unfold detectDataType detectDataTypeSpec
    by_cases h : ((data.filter nonEmptyCell).take 100).length = 0
    · simp only [h, if_pos rfl]
      rw [List.length_eq_zero] at h
      simp [h]
    · have hne : (data.filter nonEmptyCell).take 100 ≠ [] := by
        intro hc; exact h (by simp [hc])
      have hL : 0 < ((data.filter nonEmptyCell).take 100).length :=
        Nat.pos_of_ne_zero h
      simp only [if_neg h, if_neg hne]
      have hnum := percent_ge_iff ((( data.filter nonEmptyCell).take 100).filter isNumber).length
        ((data.filter nonEmptyCell).take 100).length hL
      have hdate := percent_ge_iff ((( data.filter nonEmptyCell).take 100).filter isDate).length
        ((data.filter nonEmptyCell).take 100).length hL
      by_cases hn : 5 * (((data.filter nonEmptyCell).take 100).filter isNumber).length
          ≥ 4 * ((data.filter nonEmptyCell).take 100).length
      · rw [if_pos (hnum.mpr hn), if_pos hn]
      · rw [if_neg (fun hc => hn (hnum.mp hc)), if_neg hn]
        by_cases hd : 5 * (((data.filter nonEmptyCell).take 100).filter isDate).length
            ≥ 4 * ((data.filter nonEmptyCell).take 100).length
        · rw [if_pos (hdate.mpr hd), if_pos hd]
        · rw [if_neg (fun hc => hd (hdate.mp hc)), if_neg hd]
  refine ⟨key, (key _).trans ?_⟩
  decide

/-- Ascending sort of a rational column.  The source sorts with the numeric
comparator `(a, b) => a - b`; on rationals every ascending sort produces the
same list (duplicates are identical values), so insertion sort is a faithful
model of `Array.prototype.sort` with that comparator. -/
def sortQ (l : List ℚ) : List ℚ :=
  List.insertionSort (· ≤ ·) l

/-- `fileAnalysis.js` `calculateMean`. -/
def calculateMean (numbers : List ℚ) : ℚ :=
  numbers.sum / (numbers.length : ℚ)

/-- `fileAnalysis.js` `calculateMedian`: middle of the sorted list, or the
average of the two middles for even length.  Out-of-range indexing (only
reachable for the empty list, where JavaScript produces `NaN`) is modelled
with default `0`; no verified claim evaluates the median of an empty list. -/
def calculateMedian (numbers : List ℚ) : ℚ :=
  let sorted := sortQ numbers
  let middle := sorted.length / 2
  if sorted.length % 2 = 0 then
    (sorted.getD (middle - 1) 0 + sorted.getD middle 0) / 2
  else sorted.getD middle 0

/-- The quartile record returned by `calculateQuartiles`. -/
structure Quartiles where
  Q1 : ℚ
  Q2 : ℚ
  Q3 : ℚ
deriving DecidableEq, Repr

/-- `fileAnalysis.js` `calculateQuartiles`: Q1 is the median of
`sorted.slice(0, floor(n/2))`, Q2 the median of the whole list, Q3 the median
of `sorted.slice(ceil(n/2))` — for odd length both halves exclude the middle
element. -/
def calculateQuartiles (numbers : List ℚ) : Quartiles :=
  let sorted := sortQ numbers
  { Q1 := calculateMedian (sorted.take (sorted.length / 2))
    Q2 := calculateMedian sorted
    Q3 := calculateMedian (sorted.drop ((sorted.length + 1) / 2)) }

/-- `fileAnalysis.js` `detectOutliers`: the values outside
`[Q1 − 1.5·IQR, Q3 + 1.5·IQR]`. -/
def detectOutliers (numbers : List ℚ) : List ℚ :=
  let quartiles := calculateQuartiles numbers
  let iqr := quartiles.Q3 - quartiles.Q1
  let lowerBound := quartiles.Q1 - 1.5 * iqr
  let upperBound := quartiles.Q3 + 1.5 * iqr
  numbers.filter (fun num => decide (num < lowerBound) || decide (upperBound < num))

theorem sortQ_example : sortQ [1, 2, 3, 4, 100] = [1, 2, 3, 4, 100] := by
  simp [sortQ, List.insertionSort, List.orderedInsert]

/-- Claim C1 counterexample: on the column `[1,2,3,4,100]` the code does not
return Q1 = 2, Q3 = 4 and outliers `[100]` — the lower half
`sorted.slice(0, floor(5/2)) = [1,2]` excludes the middle element, so
Q1 = 1.5, Q3 = 52 and no value falls outside the fences. -/
theorem quartiles_example_counterexample :
    ¬ ((calculateQuartiles [1, 2, 3, 4, 100]).Q1 = 2 ∧
       (calculateQuartiles [1, 2, 3, 4, 100]).Q3 = 4 ∧
       detectOutliers [1, 2, 3, 4, 100] = [100]) := by
  intro h
  have h1 := h.1
  rw [show calculateQuartiles [1, 2, 3, 4, 100]
      = { Q1 := 3 / 2, Q2 := 3, Q3 := 52 } from ?_] at h1
  · exact absurd h1 (by norm_num)
  · unfold calculateQuartiles
    rw [show sortQ [1, 2, 3, 4, 100] = [1, 2, 3, 4, 100] from sortQ_example]
    simp [calculateMedian, sortQ, List.insertionSort, List.orderedInsert]
    norm_num

/-- Claim C1 (amended): for the numeric column `[1,2,3,4,100]` the code
returns mean = 22, median = 3, Q1 = 1.5, Q3 = 52 (the halves exclude the
middle element for odd count: lower half `slice(0, floor(n/2))`, upper half
`slice(ceil(n/2))`), IQR = 50.5, outlier fence `[-74.25, 127.75]`, and no
outliers. -/
theorem quartiles_example_amended :
    calculateMean [1, 2, 3, 4, 100] = 22 ∧
    calculateMedian [1, 2, 3, 4, 100] = 3 ∧
    calculateQuartiles [1, 2, 3, 4, 100] = { Q1 := 3 / 2, Q2 := 3, Q3 := 52 } ∧
    (calculateQuartiles [1, 2, 3, 4, 100]).Q3
      - (calculateQuartiles [1, 2, 3, 4, 100]).Q1 = 101 / 2 ∧
    (calculateQuartiles [1, 2, 3, 4, 100]).Q1 - 1.5 * (101 / 2) = -297 / 4 ∧
    (calculateQuartiles [1, 2, 3, 4, 100]).Q3 + 1.5 * (101 / 2) = 511 / 4 ∧
    detectOutliers [1, 2, 3, 4, 100] = [] := by
  have hq : calculateQuartiles [1, 2, 3, 4, 100]
      = { Q1 := 3 / 2, Q2 := 3, Q3 := 52 } := by
    unfold calculateQuartiles
    rw [show sortQ [1, 2, 3, 4, 100] = [1, 2, 3, 4, 100] from sortQ_example]
    simp [calculateMedian, sortQ, List.insertionSort, List.orderedInsert]
    norm_num
  refine ⟨?_, ?_, hq, ?_, ?_, ?_, ?_⟩
  · simp [calculateMean]
    norm_num
  · simp [calculateMedian, sortQ, List.insertionSort, List.orderedInsert]
  · rw [hq]; norm_num
  · rw [hq]; norm_num
  · rw [hq]; norm_num
  · unfold detectOutliers
    rw [hq]
    norm_num

/-- Association-list lookup, modelling JavaScript object property access
(`obj[k]`). -/
def alook {K V : Type} [DecidableEq K] (k : K) : List (K × V) → Option V
  | [] => none
  | (k', v) :: t => if k' = k then some v else alook k t

/-- One step of `freq[val] = (freq[val] || 0) + 1`: increment the entry in
place if the key is present, otherwise append a fresh entry. -/
def bump : List (ℚ × ℕ) → ℚ → List (ℚ × ℕ)
  | [], v => [(v, 1)]
  | (k, c) :: t, v => if k = v then (k, c + 1) :: t else (k, c) :: bump t v

/-- `fileAnalysis.js` `calculateFrequencies`: the frequency table as the
JavaScript object it builds, in insertion order.  Object keys are the
`String(value)` images; since number→string→number round-trips exactly in
JavaScript, keys are modelled by the numbers themselves. -/
def calculateFrequencies (values : List ℚ) : List (ℚ × ℕ) :=
  values.foldl bump []

theorem alook_bump (l : List (ℚ × ℕ)) (v k : ℚ) :
    alook k (bump l v) =
      if k = v then some ((alook v l).getD 0 + 1) else alook k l := by
  induction l with
  | nil =>
      by_cases h : k = v
      · subst h; simp [bump, alook]
      · simp [bump, alook, h, Ne.symm h]
  | cons p t ih =>
      obtain ⟨k', c⟩ := p
      by_cases h1 : k' = v
      · subst h1
        by_cases h2 : k = k'
        · subst h2; simp [bump, alook]
        · simp [bump, alook, h2, Ne.symm h2]
      · by_cases h2 : k' = k
        · subst h2
          simp [bump, alook, h1]
        · simp [bump, alook, h1, h2, ih]

theorem alook_foldl_bump (values : List ℚ) :
    ∀ (acc : List (ℚ × ℕ)) (k : ℚ),
      alook k (values.foldl bump acc) =
        if values.count k = 0 then alook k acc
        else some ((alook k acc).getD 0 + values.count k) := by
  induction values with
  | nil => intro acc k; simp
  | cons v t ih =>
      intro acc k
      rw [List.foldl_cons, ih (bump acc v) k, alook_bump]
      by_cases hkv : k = v
      · subst hkv
        rw [List.count_cons_self]
        simp only [if_pos rfl]
        by_cases ht : t.count k = 0
        · simp [ht]
        · have hne : ¬ (t.count k + 1 = 0) := by omega
          simp [ht, hne]
          omega
      · rw [List.count_cons_of_ne (by exact fun hc => hkv hc)]
        simp [if_neg hkv]

theorem bump_fst_mem {l : List (ℚ × ℕ)} {v : ℚ} {p : ℚ × ℕ}
    (h : p ∈ bump l v) : p.1 ∈ l.map Prod.fst ∨ p.1 = v := by
  induction l with
  | nil =>
      simp [bump] at h
      subst h
      exact Or.inr rfl
  | cons q t ih =>
      obtain ⟨k, c⟩ := q
      by_cases hk : k = v
      · rw [show bump ((k, c) :: t) v = (k, c + 1) :: t from by simp [bump, hk]] at h
        rcases List.mem_cons.mp h with heq | hmem
        · subst heq; exact Or.inl (by simp)
        · exact Or.inl (by simp [List.mem_map_of_mem Prod.fst hmem])
      · rw [show bump ((k, c) :: t) v = (k, c) :: bump t v from by simp [bump, hk]] at h
        rcases List.mem_cons.mp h with heq | hmem
        · subst heq; exact Or.inl (by simp)
        · rcases ih hmem with h2 | h2
          · exact Or.inl (by simp [h2])
          · exact Or.inr h2

theorem bump_keys_nodup {l : List (ℚ × ℕ)} (h : (l.map Prod.fst).Nodup) (v : ℚ) :
    ((bump l v).map Prod.fst).Nodup := by
  induction l with
  | nil => simp [bump]
  | cons q t ih =>
      obtain ⟨k, c⟩ := q
      rw [List.map_cons, List.nodup_cons] at h
      by_cases hk : k = v
      · rw [show bump ((k, c) :: t) v = (k, c + 1) :: t from by simp [bump, hk]]
        rw [List.map_cons, List.nodup_cons]
        exact h
      · rw [show bump ((k, c) :: t) v = (k, c) :: bump t v from by simp [bump, hk]]
        rw [List.map_cons, List.nodup_cons]
        refine ⟨fun hmem => ?_, ih h.2⟩
        rcases List.mem_map.mp hmem with ⟨p, hp, hpk⟩
        rcases bump_fst_mem hp with h2 | h2
        · exact h.1 (hpk ▸ h2)
        · exact hk ((hpk.symm.trans h2) ▸ rfl)

theorem freq_keys_nodup (values : List ℚ) :
    ((calculateFrequencies values).map Prod.fst).Nodup := by
  have key : ∀ (acc : List (ℚ × ℕ)), (acc.map Prod.fst).Nodup →
      ((values.foldl bump acc).map Prod.fst).Nodup := by
    induction values with
    | nil => intro acc h; simpa using h
    | cons v t ih =>
        intro acc h
        rw [List.foldl_cons]
        exact ih _ (bump_keys_nodup h v)
  exact key [] (by simp)

theorem alook_eq_some_iff {K V : Type} [DecidableEq K]
    {l : List (K × V)} (h : (l.map Prod.fst).Nodup) (k : K) (v : V) :
    (k, v) ∈ l ↔ alook k l = some v := by
  induction l with
  | nil => simp [alook]
  | cons p t ih =>
      obtain ⟨k', v'⟩ := p
      rw [List.map_cons, List.nodup_cons] at h
      by_cases hk : k' = k
      · constructor
        · intro hmem
          rcases List.mem_cons.mp hmem with heq | hmem'
          · rw [Prod.mk.injEq] at heq
            simp [alook, hk, heq.2.symm]
          · exact absurd (show k' ∈ t.map Prod.fst from by
              rw [hk]; exact List.mem_map_of_mem Prod.fst hmem') h.1
        · intro hl
          simp only [alook, if_pos hk, Option.some.injEq] at hl
          exact List.mem_cons.mpr (Or.inl (by rw [Prod.mk.injEq]; exact ⟨hk.symm, hl.symm⟩))
      · rw [show alook k ((k', v') :: t) = alook k t from by simp [alook, hk]]
        rw [← ih h.2]
        constructor
        · intro hmem
          rcases List.mem_cons.mp hmem with heq | hmem'
          · rw [Prod.mk.injEq] at heq
            exact absurd heq.1.symm hk
          · exact hmem'
        · exact fun hmem => List.mem_cons.mpr (Or.inr hmem)

/-- Whether a rational, viewed as a JavaScript object key string, is an array
index: the canonical numeral of an integer in `[0, 2^32 − 1)`. -/
def isArrayIdxKey (q : ℚ) : Bool :=
  q.den == 1 && decide (0 ≤ q.num) && decide (q.num < 4294967295)

/-- JavaScript own-property enumeration order: array-index keys first, in
ascending numeric order, then all remaining keys in insertion order. -/
def jsReorder {K V : Type} (p : K × V → Bool) (le : K × V → K × V → Prop)
    [DecidableRel le] (l : List (K × V)) : List (K × V) :=
  List.insertionSort le (l.filter p) ++ l.filter (fun x => !(p x))

theorem jsReorder_perm {K V : Type} (p : K × V → Bool) (le : K × V → K × V → Prop)
    [DecidableRel le] (l : List (K × V)) : List.Perm (jsReorder p le l) l := by
  unfold jsReorder
  exact ((List.perm_insertionSort le _).append_right _).trans
    (List.filter_append_perm p l)

/-- `Object.entries` of a number-keyed object: array-index keys ascending,
then the rest in insertion order. -/
def jsEntries (l : List (ℚ × ℕ)) : List (ℚ × ℕ) :=
  jsReorder (fun x => isArrayIdxKey x.1) (fun x y => x.1 ≤ y.1) l

/-- The scan of `calculateMode`: walk the entries, keeping the first entry
whose frequency strictly exceeds the running maximum (initially 0,
mode initially `null`). -/
def modeLoop : List (ℚ × ℕ) → Option ℚ → ℕ → Option ℚ
  | [], mode, _ => mode
  | (v, f) :: t, mode, maxFreq =>
      if f > maxFreq then modeLoop t (some v) f else modeLoop t mode maxFreq

/-- `fileAnalysis.js` `calculateMode`: scan `Object.entries` of the frequency
table for the (first) entry of maximal frequency.  `Number(key)` round-trips
exactly, so the key itself is returned. -/
def calculateMode (numbers : List ℚ) : Option ℚ :=
  modeLoop (jsEntries (calculateFrequencies numbers)) none 0

theorem modeLoop_spec (l : List (ℚ × ℕ)) :
    ∀ (best : Option ℚ) (maxF : ℕ),
      (modeLoop l best maxF = best ∧ ∀ p ∈ l, p.2 ≤ maxF) ∨
      (∃ i : Fin l.length,
        modeLoop l best maxF = some (l.get i).1 ∧
        maxF < (l.get i).2 ∧
        (∀ j : Fin l.length, (l.get j).2 ≤ (l.get i).2) ∧
        (∀ j : Fin l.length, (j : ℕ) < (i : ℕ) → (l.get j).2 < (l.get i).2)) := by
  induction l with
  | nil => intro best maxF; exact Or.inl ⟨rfl, by simp⟩
  | cons q t ih =>
      intro best maxF
      obtain ⟨v, f⟩ := q
      by_cases hf : f > maxF
      · rw [show modeLoop ((v, f) :: t) best maxF = modeLoop t (some v) f from by
          simp [modeLoop, hf]]
        rcases ih (some v) f with ⟨heq, hall⟩ | ⟨i, heq, hlt, hall, hfirst⟩
        · refine Or.inr ⟨⟨0, by simp⟩, by simpa using heq, hf, ?_, ?_⟩
          · intro j
            rcases j with ⟨jv, hj⟩
            cases jv with
            | zero => exact le_refl _
            | succ n =>
                exact hall _ (List.get_mem t _ _)
          · intro j hj
            rcases j with ⟨jv, hjlt⟩
            exact absurd hj (by simp)
        · refine Or.inr ⟨⟨(i : ℕ) + 1, Nat.succ_lt_succ i.isLt⟩, heq,
            lt_trans hf hlt, ?_, ?_⟩
          · intro j
            rcases j with ⟨jv, hj⟩
            cases jv with
            | zero => exact le_of_lt hlt
            | succ n =>
                exact hall ⟨n, Nat.lt_of_succ_lt_succ hj⟩
          · intro j hj
            rcases j with ⟨jv, hjlt⟩
            cases jv with
            | zero => exact hlt
            | succ n =>
                exact hfirst ⟨n, Nat.lt_of_succ_lt_succ hjlt⟩
                  (Nat.lt_of_succ_lt_succ hj)
      · rw [show modeLoop ((v, f) :: t) best maxF = modeLoop t best maxF from by
          simp [modeLoop, hf]]
        rcases ih best maxF with ⟨heq, hall⟩ | ⟨i, heq, hlt, hall, hfirst⟩
        · refine Or.inl ⟨heq, ?_⟩
          intro p hp
          rcases List.mem_cons.mp hp with rfl | hp'
          · exact le_of_not_lt hf
          · exact hall p hp'
        · refine Or.inr ⟨⟨(i : ℕ) + 1, Nat.succ_lt_succ i.isLt⟩, heq, hlt, ?_, ?_⟩
          · intro j
            rcases j with ⟨jv, hj⟩
            cases jv with
            | zero => exact le_trans (le_of_not_lt hf) (le_of_lt hlt)
            | succ n =>
                exact hall ⟨n, Nat.lt_of_succ_lt_succ hj⟩
          · intro j hj
            rcases j with ⟨jv, hjlt⟩
            cases jv with
            | zero => exact lt_of_le_of_lt (le_of_not_lt hf) hlt
            | succ n =>
                exact hfirst ⟨n, Nat.lt_of_succ_lt_succ hjlt⟩
                  (Nat.lt_of_succ_lt_succ hj)

theorem freq_mem_iff (values : List ℚ) (k : ℚ) (c : ℕ) :
    (k, c) ∈ calculateFrequencies values ↔ (k ∈ values ∧ c = values.count k) := by
  rw [alook_eq_some_iff (freq_keys_nodup values)]
  unfold calculateFrequencies
  rw [alook_foldl_bump]
  by_cases h : values.count k = 0
  · simp [h, alook]
    intro hmem
    exact absurd (List.count_pos_iff.mpr hmem) (by omega)
  · simp [h, alook]
    have hmem : k ∈ values := by
      by_contra hc
      exact h (List.count_eq_zero.mpr hc)
    constructor
    · intro hc; exact ⟨hmem, hc.symm⟩
    · intro ⟨_, hc⟩; exact hc.symm

/-- Claim C9 (amended): for every non-empty numeric column, `calculateMode`
returns the key of an entry of the enumerated frequency table whose frequency
is maximal (so the mode is a value of the column with the highest count), and
ties are broken by JavaScript object enumeration order — array-index keys
ascending, then insertion order — not by first appearance in the input:
every entry strictly before the returned one has strictly smaller
frequency. -/
theorem calculateMode_max_first (values : List ℚ) (hne : values ≠ []) :
    ∃ i : Fin (jsEntries (calculateFrequencies values)).length,
      calculateMode values = some ((jsEntries (calculateFrequencies values)).get i).1 ∧
      ((jsEntries (calculateFrequencies values)).get i).1 ∈ values ∧
      (∀ v ∈ values, values.count v
        ≤ values.count ((jsEntries (calculateFrequencies values)).get i).1) ∧
      (∀ j : Fin (jsEntries (calculateFrequencies values)).length,
        (j : ℕ) < (i : ℕ) →
        ((jsEntries (calculateFrequencies values)).get j).2
          < ((jsEntries (calculateFrequencies values)).get i).2) := by
  have hperm := jsReorder_perm (fun x : ℚ × ℕ => isArrayIdxKey x.1)
    (fun x y => x.1 ≤ y.1) (calculateFrequencies values)
  rcases modeLoop_spec (jsEntries (calculateFrequencies values)) none 0 with
    ⟨_, hall⟩ | ⟨i, heq, _, hall, hfirst⟩
  · obtain ⟨v, rest, rfl⟩ := List.exists_cons_of_ne_nil hne
    have hvmem : v ∈ v :: rest := List.mem_cons_self v rest
    have hfreq : (v, (v :: rest).count v) ∈ calculateFrequencies (v :: rest) :=
      (freq_mem_iff _ _ _).mpr ⟨hvmem, rfl⟩
    have hE : (v, (v :: rest).count v) ∈ jsEntries (calculateFrequencies (v :: rest)) :=
      hperm.mem_iff.mpr hfreq
    have hle := hall _ hE
    have hpos : 0 < (v :: rest).count v := List.count_pos_iff.mpr hvmem
    omega
  · have hmemE := List.get_mem (jsEntries (calculateFrequencies values)) i.1 i.2
    have hmemF := hperm.mem_iff.mp hmemE
    have hchar := (freq_mem_iff values
      ((jsEntries (calculateFrequencies values)).get i).1
      ((jsEntries (calculateFrequencies values)).get i).2).mp hmemF
    refine ⟨i, heq, hchar.1, ?_, hfirst⟩
    intro v hv
    have hvE : (v, values.count v) ∈ jsEntries (calculateFrequencies values) :=
      hperm.mem_iff.mpr ((freq_mem_iff _ _ _).mpr ⟨hv, rfl⟩)
    obtain ⟨j, hj⟩ := List.mem_iff_get.mp hvE
    have hle := hall j
    rw [hj] at hle
    rw [← hchar.2]
    exact hle

theorem calculateMode_max_first_witness :
    ∃ i : Fin (jsEntries (calculateFrequencies [1, 2, 2])).length,
      calculateMode [1, 2, 2] = some ((jsEntries (calculateFrequencies [1, 2, 2])).get i).1 ∧
      ((jsEntries (calculateFrequencies [1, 2, 2])).get i).1 ∈ ([1, 2, 2] : List ℚ) ∧
      (∀ v ∈ ([1, 2, 2] : List ℚ), ([1, 2, 2] : List ℚ).count v
        ≤ ([1, 2, 2] : List ℚ).count ((jsEntries (calculateFrequencies [1, 2, 2])).get i).1) ∧
      (∀ j : Fin (jsEntries (calculateFrequencies [1, 2, 2])).length,
        (j : ℕ) < (i : ℕ) →
        ((jsEntries (calculateFrequencies [1, 2, 2])).get j).2
          < ((jsEntries (calculateFrequencies [1, 2, 2])).get i).2) :=
  calculateMode_max_first [1, 2, 2] (by simp)

/-- Claim C9 counterexample: on the column `[3,1,3,1]` the values 3 and 1 tie
at frequency 2 and 3 is seen first, yet the code returns 1 — `Object.entries`
enumerates the integer-like keys in ascending numeric order, not insertion
order, so the smallest tied nonnegative-integer value wins. -/
theorem calculateMode_tie_counterexample :
    calculateMode [3, 1, 3, 1] = some 1 ∧
    ([3, 1, 3, 1] : List ℚ).count 3 = ([3, 1, 3, 1] : List ℚ).count 1 ∧
    ([3, 1, 3, 1] : List ℚ).head? = some 3 ∧
    (1 : ℚ) ≠ 3 := by
  have hfreq : calculateFrequencies [3, 1, 3, 1] = [(3, 2), (1, 2)] := by
    norm_num [calculateFrequencies, bump]
  have hent : jsEntries [(3, 2), (1, 2)] = [(1, 2), (3, 2)] := by
    norm_num [jsEntries, jsReorder, isArrayIdxKey, List.insertionSort,
      List.orderedInsert]
  refine ⟨?_, ?_, rfl, by norm_num⟩
  · unfold calculateMode
    rw [hfreq, hent]
    rfl
  · simp [List.count_cons]

/-- A table row: a JavaScript object mapping column names to cell values. -/
abbrev Row := List (String × Cell)

/-- Property access `row[col]`: the value at the first matching key, or
`undefined` (`Cell.empty`) when the key is absent. -/
def getCell : Row → String → Cell
  | [], _ => Cell.empty
  | (k, v) :: t, c => if k = c then v else getCell t c

/-- Decimal numeral characters of a natural number; the fuel argument (first)
bounds the recursion and any fuel at least the number itself is enough. -/
def natToCharsAux : ℕ → ℕ → List Char
  | 0, _ => []
  | fuel + 1, n =>
      if n = 0 then []
      else natToCharsAux fuel (n / 10) ++ [Char.ofNat (48 + n % 10)]

/-- Decimal numeral of a natural number. -/
def natToChars (n : ℕ) : List Char :=
  if n = 0 then ['0'] else natToCharsAux n n

/-- JavaScript `String(number)`.  Faithful for integers (the canonical decimal
numeral, with a leading `-` when negative).  JavaScript prints non-integer
doubles as their shortest round-tripping decimal; non-integer rationals get a
canonical `num/den` rendering here instead — it is injective and disjoint
from both integer renderings and decimal strings, and no verified claim
stringifies a non-integer number. -/
def jsNumToString (q : ℚ) : String :=
  if q.den = 1 then
    if q.num < 0 then String.mk ('-' :: natToChars q.num.natAbs)
    else String.mk (natToChars q.num.natAbs)
  else String.mk (natToChars q.num.natAbs ++ '/' :: natToChars q.den)

/-- JavaScript `String(value)` on a cell (also the `ToPropertyKey` coercion
used when a value is used as an object key). -/
def jsToStr (c : Cell) : String :=
  match c with
  | Cell.num q => jsNumToString q
  | Cell.str s => s
  | Cell.empty => "undefined"

/-- The per-group accumulator `{sum, count, min, max}` of `groupData`. -/
structure GroupStats where
  sum : ℚ
  count : ℚ
  min : ℚ
  max : ℚ
deriving DecidableEq, Repr

/-- `Number(row[valueColumn]) || 0`: numeric coercion with `NaN` (and `0`)
falling back to `0`. -/
def jsNumOr0 (c : Cell) : ℚ :=
  (jsToNumOpt c).getD 0

/-- One row's update of the grouping object: create the `{sum: 0, count: 0,
min: value, max: value}` entry if the key is new, then accumulate sum, count,
min and max. -/
def bumpGroup : List (String × GroupStats) → String → ℚ → List (String × GroupStats)
  | [], k, v => [(k, ⟨v, 1, v, v⟩)]
  | (k', s) :: t, k, v =>
      if k' = k then
        (k', ⟨s.sum + v, s.count + 1, min s.min v, max s.max v⟩) :: t
      else (k', s) :: bumpGroup t k v

/-- Whether a string is a JavaScript array-index key: a canonical decimal
numeral (no leading zero except `"0"` itself) below `2^32 − 1`. -/
def isArrayIdxStr (s : String) : Bool :=
  !(s.data.isEmpty) && s.data.all Char.isDigit &&
    (s.data == ['0'] || !(s.data.head? == some '0')) &&
    decide (digitsVal s.data < 4294967295)

/-- `Object.entries` of a string-keyed object: array-index keys first in
ascending numeric order, then the rest in insertion order. -/
def jsEntriesS {V : Type} (l : List (String × V)) : List (String × V) :=
  jsReorder (fun x => isArrayIdxStr x.1)
    (fun x y => digitsVal x.1.data ≤ digitsVal y.1.data) l

/-- The final per-group reduction switch of `groupData`; unknown aggregation
kinds fall back to the sum. -/
def aggReduce (aggregation : String) (s : GroupStats) : ℚ :=
  match aggregation with
  | "sum" => s.sum
  | "average" => s.sum / s.count
  | "count" => s.count
  | "min" => s.min
  | "max" => s.max
  | _ => s.sum

/-- `groupData` of the chart module: group rows by the string image of the
group-by value (object keys are strings), accumulate per-group statistics,
then reduce each group according to the aggregation kind. -/
def groupData (data : List Row) (groupBy valueColumn aggregation : String) :
    List (String × ℚ) :=
  let grouped := data.foldl (fun acc row =>
    bumpGroup acc (jsToStr (getCell row groupBy))
      (jsNumOr0 (getCell row valueColumn))) []
  (jsEntriesS grouped).map (fun p => (p.1, aggReduce aggregation p.2))

theorem alook_bumpGroup (l : List (String × GroupStats)) (k0 k : String) (v : ℚ) :
    alook k (bumpGroup l k0 v) =
      if k = k0 then
        some (match alook k0 l with
          | none => ⟨v, 1, v, v⟩
          | some s => ⟨s.sum + v, s.count + 1, min s.min v, max s.max v⟩)
      else alook k l := by
  induction l with
  | nil =>
      by_cases h : k = k0
      · subst h; simp [bumpGroup, alook]
      · simp [bumpGroup, alook, h, Ne.symm h]
  | cons p t ih =>
      obtain ⟨k', s⟩ := p
      by_cases h1 : k' = k0
      · subst h1
        by_cases h2 : k = k'
        · subst h2; simp [bumpGroup, alook]
        · simp [bumpGroup, alook, h2, Ne.symm h2]
      · by_cases h2 : k' = k
        · subst h2
          simp [bumpGroup, alook, h1, fun hc : k' = k0 => h1 hc]
        · simp [bumpGroup, alook, h1, h2, ih]

theorem bumpGroup_fst_mem {l : List (String × GroupStats)} {k0 : String} {v : ℚ}
    {p : String × GroupStats} (h : p ∈ bumpGroup l k0 v) :
    p.1 ∈ l.map Prod.fst ∨ p.1 = k0 := by
  induction l with
  | nil =>
      simp [bumpGroup] at h
      subst h
      exact Or.inr rfl
  | cons q t ih =>
      obtain ⟨k', s⟩ := q
      by_cases hk : k' = k0
      · rw [show bumpGroup ((k', s) :: t) k0 v
            = (k', ⟨s.sum + v, s.count + 1, min s.min v, max s.max v⟩) :: t from by
          simp [bumpGroup, hk]] at h
        rcases List.mem_cons.mp h with heq | hmem
        · subst heq; exact Or.inl (by simp)
        · exact Or.inl (by simp [List.mem_map_of_mem Prod.fst hmem])
      · rw [show bumpGroup ((k', s) :: t) k0 v = (k', s) :: bumpGroup t k0 v from by
          simp [bumpGroup, hk]] at h
        rcases List.mem_cons.mp h with heq | hmem
        · subst heq; exact Or.inl (by simp)
        · rcases ih hmem with h2 | h2
          · exact Or.inl (by simp [h2])
          · exact Or.inr h2

theorem bumpGroup_keys_nodup {l : List (String × GroupStats)}
    (h : (l.map Prod.fst).Nodup) (k0 : String) (v : ℚ) :
    ((bumpGroup l k0 v).map Prod.fst).Nodup := by
  induction l with
  | nil => simp [bumpGroup]
  | cons q t ih =>
      obtain ⟨k', s⟩ := q
      rw [List.map_cons, List.nodup_cons] at h
      by_cases hk : k' = k0
      · rw [show bumpGroup ((k', s) :: t) k0 v
            = (k', ⟨s.sum + v, s.count + 1, min s.min v, max s.max v⟩) :: t from by
          simp [bumpGroup, hk]]
        rw [List.map_cons, List.nodup_cons]
        exact h
      · rw [show bumpGroup ((k', s) :: t) k0 v = (k', s) :: bumpGroup t k0 v from by
          simp [bumpGroup, hk]]
        rw [List.map_cons, List.nodup_cons]
        refine ⟨fun hmem => ?_, ih h.2⟩
        rcases List.mem_map.mp hmem with ⟨p, hp, hpk⟩
        rcases bumpGroup_fst_mem hp with h2 | h2
        · exact h.1 (hpk ▸ h2)
        · exact hk ((hpk.symm.trans h2) ▸ rfl)

theorem alook_perm {K V : Type} [DecidableEq K] {l l' : List (K × V)}
    (hp : l.Perm l') (hnd : (l.map Prod.fst).Nodup) (k : K) :
    alook k l = alook k l' := by
  have hnd' : (l'.map Prod.fst).Nodup := ((hp.map Prod.fst).nodup_iff).mp hnd
  cases h : alook k l with
  | none =>
      cases h' : alook k l' with
      | none => rfl
      | some v =>
          have hmem : (k, v) ∈ l := hp.mem_iff.mpr ((alook_eq_some_iff hnd' k v).mpr h')
          rw [(alook_eq_some_iff hnd k v).mp hmem] at h
          exact absurd h (by simp)
  | some v =>
      have hmem : (k, v) ∈ l' := hp.mem_iff.mp ((alook_eq_some_iff hnd k v).mpr h)
      exact ((alook_eq_some_iff hnd' k v).mp hmem).symm

theorem alook_map_val {K V W : Type} [DecidableEq K] (f : V → W)
    (l : List (K × V)) (k : K) :
    alook k (l.map (fun p => (p.1, f p.2))) = (alook k l).map f := by
  induction l with
  | nil => simp [alook]
  | cons p t ih =>
      obtain ⟨k', v⟩ := p
      by_cases h : k' = k <;> simp [alook, h, ih]

theorem grouped_keys_nodup (data : List Row) (gb vc : String) :
    ∀ (acc : List (String × GroupStats)), (acc.map Prod.fst).Nodup →
      (((data.foldl (fun acc row =>
          bumpGroup acc (jsToStr (getCell row gb))
            (jsNumOr0 (getCell row vc))) acc)).map Prod.fst).Nodup := by
  induction data with
  | nil => intro acc h; simpa using h
  | cons r t ih =>
      intro acc h
      rw [List.foldl_cons]
      exact ih _ (bumpGroup_keys_nodup h _ _)

theorem groupFold_count (gb vc : String) (data : List Row) :
    ∀ (acc : List (String × GroupStats)) (k : String),
      (alook k (data.foldl (fun acc row =>
          bumpGroup acc (jsToStr (getCell row gb))
            (jsNumOr0 (getCell row vc))) acc)).map GroupStats.count =
        (match alook k acc with
         | none =>
             if (data.filter (fun r => jsToStr (getCell r gb) = k)).length = 0
             then none
             else some (((data.filter (fun r => jsToStr (getCell r gb) = k)).length : ℚ))
         | some s =>
             some (s.count
               + ((data.filter (fun r => jsToStr (getCell r gb) = k)).length : ℚ))) := by
  induction data with
  | nil =>
      intro acc k
      cases h : alook k acc <;> simp [h]
  | cons r t ih =>
      intro acc k
      rw [List.foldl_cons, ih (bumpGroup acc (jsToStr (getCell r gb))
        (jsNumOr0 (getCell r vc))) k]
      by_cases hk : jsToStr (getCell r gb) = k
      · rw [show (((r :: t).filter (fun r => jsToStr (getCell r gb) = k))).length
            = ((t.filter (fun r => jsToStr (getCell r gb) = k))).length + 1 from by
          simp [List.filter_cons, hk]]
        rw [alook_bumpGroup, if_pos hk.symm, hk]
        cases h : alook k acc with
        | none =>
            simp only [h]
            have hne : ¬ ((t.filter (fun r => jsToStr (getCell r gb) = k)).length + 1 = 0) := by
              omega
            by_cases ht : (t.filter (fun r => jsToStr (getCell r gb) = k)).length = 0
            · simp [ht]
            · simp only [ht, if_false, hne, if_false]
              push_cast
              ring_nf
        | some s =>
            simp only [h]
            push_cast
            ring_nf
      · rw [show (((r :: t).filter (fun r => jsToStr (getCell r gb) = k))).length
            = ((t.filter (fun r => jsToStr (getCell r gb) = k))).length from by
          simp [List.filter_cons, hk]]
        rw [alook_bumpGroup, if_neg (fun hc => hk hc.symm)]

/-- Claim C5 (amended): the grouping key of the chart-data builder is the
JavaScript property-key string `String(value)` of the raw group-by value, so
rows whose group-by values have the same string image share one group: with
`aggregation = count`, the value recorded under key `k` is exactly the number
of rows whose group-by value stringifies to `k`. -/
theorem groupData_count_by_keyString (data : List Row) (gb vc k : String) :
    alook k (groupData data gb vc "count") =
      (if (data.filter (fun r => jsToStr (getCell r gb) = k)).length = 0 then none
       else some (((data.filter (fun r => jsToStr (getCell r gb) = k)).length : ℚ))) := by
  unfold groupData
  rw [alook_map_val (aggReduce "count")]
  unfold jsEntriesS
  rw [alook_perm
    (jsReorder_perm (fun x : String × GroupStats => isArrayIdxStr x.1)
      (fun x y => digitsVal x.1.data ≤ digitsVal y.1.data) _)
    (((jsReorder_perm (fun x : String × GroupStats => isArrayIdxStr x.1)
      (fun x y => digitsVal x.1.data ≤ digitsVal y.1.data) _).map
        Prod.fst).nodup_iff.mpr (grouped_keys_nodup data gb vc [] (by simp))) k]
  have hred : ∀ s : GroupStats, aggReduce "count" s = s.count := fun s => rfl
  rw [show Option.map (aggReduce "count")
      = Option.map GroupStats.count from by
    funext o; cases o <;> simp [hred]]
  rw [groupFold_count gb vc data [] k]
  simp [alook]

/-- Claim C5 counterexample: two rows whose group-by values are the number `5`
and the string `"5"` land in ONE group, not two — object property keys are
strings, and `String(5) = "5"` collides with the key `"5"`. -/
theorem groupData_key_coercion_counterexample :
    groupData
      [[("g", Cell.num 5), ("v", Cell.num 10)],
       [("g", Cell.str "5"), ("v", Cell.num 20)]] "g" "v" "sum"
      = [("5", 30)] ∧
    (groupData
      [[("g", Cell.num 5), ("v", Cell.num 10)],
       [("g", Cell.str "5"), ("v", Cell.num 20)]] "g" "v" "sum").length = 1 := by
  have hgv : ¬ ("g" = "v") := by decide
  have hdig : (Char.ofNat 53).isDigit = true := by decide
  have htn : (Char.ofNat 53).toNat - 48 = 5 := by decide
  have h : groupData
      [[("g", Cell.num 5), ("v", Cell.num 10)],
       [("g", Cell.str "5"), ("v", Cell.num 20)]] "g" "v" "sum"
      = [("5", 30)] := by
    norm_num [groupData, bumpGroup, getCell, jsToStr, jsNumToString, natToChars,
      natToCharsAux, jsNumOr0, jsToNumOpt, jsEntriesS, jsReorder, isArrayIdxStr,
      digitsVal, aggReduce, List.insertionSort, List.orderedInsert, hgv, hdig, htn]
  exact ⟨h, by rw [h]; rfl⟩

/-- A filter of the chart configuration: `{column, operator, value}`. -/
structure FilterSpec where
  column : String
  operator : String
  value : Cell
deriving DecidableEq, Repr

/-- JavaScript `a < b` on cell values: two strings compare lexicographically,
otherwise both sides coerce to numbers and the comparison is false when either
is `NaN`. -/
def jsLt (a b : Cell) : Bool :=
  match a, b with
  | Cell.str s, Cell.str t => decide (s < t)
  | _, _ =>
      match jsToNumOpt a, jsToNumOpt b with
      | some x, some y => decide (x < y)
      | _, _ => false

/-- JavaScript `a > b` on cell values (the mirrored comparison). -/
def jsGt (a b : Cell) : Bool :=
  match a, b with
  | Cell.str s, Cell.str t => decide (t < s)
  | _, _ =>
      match jsToNumOpt a, jsToNumOpt b with
      | some x, some y => decide (y < x)
      | _, _ => false

/-- `String(a).includes(String(b))`: substring containment, case-sensitive. -/
def jsIncludes (s sub : String) : Bool :=
  decide (sub.data <:+: s.data)

/-- `applyFilters` of the chart module: with an empty filter list the data
passes through; otherwise a row survives only if it satisfies every filter.
An operator outside the six known ones makes its filter always true
(the `default: return true` branch). -/
def applyFilters (data : List Row) (filters : List FilterSpec) : List Row :=
  if filters.isEmpty then data
  else
    data.filter (fun row => filters.all (fun f =>
      let value := getCell row f.column
      match f.operator with
      | "equals" => value == f.value
      | "not_equals" => !(value == f.value)
      | "greater_than" => jsGt value f.value
      | "less_than" => jsLt value f.value
      | "contains" => jsIncludes (jsToStr value) (jsToStr f.value)
      | "not_contains" => !(jsIncludes (jsToStr value) (jsToStr f.value))
      | _ => true))

/-- A chart axis configuration `{column, label}`. -/
structure Axis where
  column : String
  label : String
deriving DecidableEq, Repr

/-- A chart request: type, axes, aggregation and filters.  `zAxis` is only
consulted on the 3-D paths (it is `undefined` in 2-D requests). -/
structure ChartConfig where
  type : String
  xAxis : Axis
  yAxis : Axis
  zAxis : Axis
  aggregation : String
  filters : List FilterSpec
deriving DecidableEq, Repr

/-- The chart payloads the generator can return. -/
inductive ChartData where
  | categorical (labels : List String) (label : String) (values : List ℚ)
  | pie (labels : List String) (values : List ℚ)
  | scatter (label : String) (points : List (Cell × Cell))
  | threeD (label : String) (points : List (Cell × Cell × Cell))
deriving DecidableEq, Repr

/-- `generate2DChart`: labels and values of the grouped data, with the y-axis
label. -/
def generate2DChart (data : List Row) (xAxis yAxis : Axis) (aggregation : String) :
    ChartData :=
  let grouped := groupData data xAxis.column yAxis.column aggregation
  ChartData.categorical (grouped.map Prod.fst) yAxis.label (grouped.map Prod.snd)

/-- `generatePieChart`: grouped with the `sum` aggregation. -/
def generatePieChart (data : List Row) (labelColumn valueColumn : String) :
    ChartData :=
  let grouped := groupData data labelColumn valueColumn "sum"
  ChartData.pie (grouped.map Prod.fst) (grouped.map Prod.snd)

/-- `generateScatterChart`: one raw (x, y) point per row, in row order. -/
def generateScatterChart (data : List Row) (xAxis yAxis : Axis) : ChartData :=
  ChartData.scatter (xAxis.label ++ " vs " ++ yAxis.label)
    (data.map (fun row => (getCell row xAxis.column, getCell row yAxis.column)))

/-- `generate3DChart`: one raw (x, y, z) point per row, in row order. -/
def generate3DChart (data : List Row) (xAxis yAxis zAxis : Axis) : ChartData :=
  ChartData.threeD (xAxis.label ++ " vs " ++ yAxis.label ++ " vs " ++ zAxis.label)
    (data.map (fun row =>
      (getCell row xAxis.column, getCell row yAxis.column, getCell row zAxis.column)))

/-- `generateChart`: apply the filters, then dispatch on the chart type;
an unknown chart type throws `Unsupported chart type: …`. -/
def generateChart (data : List Row) (config : ChartConfig) :
    Except String ChartData :=
  let filteredData := applyFilters data config.filters
  match config.type with
  | "bar" | "line" | "area" =>
      Except.ok (generate2DChart filteredData config.xAxis config.yAxis
        config.aggregation)
  | "pie" =>
      Except.ok (generatePieChart filteredData config.xAxis.column
        config.yAxis.column)
  | "scatter" =>
      Except.ok (generateScatterChart filteredData config.xAxis config.yAxis)
  | "3d-bar" | "3d-scatter" | "3d-surface" =>
      Except.ok (generate3DChart filteredData config.xAxis config.yAxis
        config.zAxis)
  | t => Except.error ("Unsupported chart type: " ++ t)

/-- Claim C7: evaluation at the failing input.  A filter with the unknown
operator `"matches"` does NOT make the aggregation fail — the
`default: return true` branch keeps every row, and the bar chart is produced
as if the filter were absent. -/
theorem unknown_operator_produces_result :
    applyFilters
      [[("status", Cell.str "ok"), ("v", Cell.num 1)],
       [("status", Cell.str "fail"), ("v", Cell.num 2)]]
      [⟨"status", "matches", Cell.str "ok"⟩]
      = [[("status", Cell.str "ok"), ("v", Cell.num 1)],
         [("status", Cell.str "fail"), ("v", Cell.num 2)]] ∧
    generateChart
      [[("status", Cell.str "ok"), ("v", Cell.num 1)],
       [("status", Cell.str "fail"), ("v", Cell.num 2)]]
      ⟨"bar", ⟨"status", "Status"⟩, ⟨"v", "V"⟩, ⟨"", ""⟩, "sum",
        [⟨"status", "matches", Cell.str "ok"⟩]⟩
      = Except.ok (ChartData.categorical ["ok", "fail"] "V" [1, 2]) := by
  have hfilters : applyFilters
      [[("status", Cell.str "ok"), ("v", Cell.num 1)],
       [("status", Cell.str "fail"), ("v", Cell.num 2)]]
      [⟨"status", "matches", Cell.str "ok"⟩]
      = [[("status", Cell.str "ok"), ("v", Cell.num 1)],
         [("status", Cell.str "fail"), ("v", Cell.num 2)]] := by
    rfl
  refine ⟨hfilters, ?_⟩
  have hsv : ¬ ("status" = "v") := by decide
  have hof : ¬ (("ok" : String) = "fail") := by decide
  have hok : isArrayIdxStr "ok" = false := by decide
  have hfa : isArrayIdxStr "fail" = false := by decide
  rw [show generateChart
      [[("status", Cell.str "ok"), ("v", Cell.num 1)],
       [("status", Cell.str "fail"), ("v", Cell.num 2)]]
      ⟨"bar", ⟨"status", "Status"⟩, ⟨"v", "V"⟩, ⟨"", ""⟩, "sum",
        [⟨"status", "matches", Cell.str "ok"⟩]⟩
      = Except.ok (generate2DChart
          [[("status", Cell.str "ok"), ("v", Cell.num 1)],
           [("status", Cell.str "fail"), ("v", Cell.num 2)]]
          ⟨"status", "Status"⟩ ⟨"v", "V"⟩ "sum") from rfl]
  norm_num [generate2DChart, groupData, bumpGroup, getCell, jsToStr, jsNumOr0,
    jsToNumOpt, jsEntriesS, jsReorder, aggReduce,
    List.insertionSort, List.orderedInsert, hsv, hof, hok, hfa]

/-- The result of a Pearson computation as JavaScript produces it: `NaN`, an
exactly represented rational (the `denominator === 0` branch returns `0`, and
the diagonal is the literal `1`), or `num / sqrt(rad)` with `rad > 0` kept
symbolically (the square root is irrational in general; two results with the
same representation denote the same real number). -/
inductive PRes where
  | nan : PRes
  | val : ℚ → PRes
  | divSqrt : ℚ → ℚ → PRes
deriving DecidableEq, Repr

/-- `x.reduce((sum, xi, i) => sum + xi * y[i], 0)`: the index-paired product
sum.  When `x` is longer than `y`, the accesses `y[i]` beyond the end are
`undefined` and the whole sum is `NaN` (`none`). -/
def sumXYjs (x y : List ℚ) : Option ℚ :=
  if x.length ≤ y.length then
    some (((x.zip y).map (fun p => p.1 * p.2)).sum)
  else none

/-- The radicand of the Pearson denominator,
`(n·Σx² − (Σx)²) · (n·Σy² − (Σy)²)` with `n = x.length` (as in the source,
also in the second factor). -/
def pearsonRadicand (x y : List ℚ) : ℚ :=
  ((x.length : ℚ) * (x.map (fun v => v * v)).sum - x.sum * x.sum) *
    ((x.length : ℚ) * (y.map (fun v => v * v)).sum - y.sum * y.sum)

/-- `pearsonCorrelation` of the chart module: `r = (nΣxy − ΣxΣy) /
sqrt((nΣx²−(Σx)²)(nΣy²−(Σy)²))`, except that a zero denominator returns the
literal `0`.  A negative radicand makes `Math.sqrt` return `NaN`, and a `NaN`
numerator (misaligned vectors) divides into `NaN`. -/
def pearsonCorrelation (x y : List ℚ) : PRes :=
  let n : ℚ := (x.length : ℚ)
  let rad := pearsonRadicand x y
  if rad = 0 then PRes.val 0
  else if rad < 0 then PRes.nan
  else
    match sumXYjs x y with
    | none => PRes.nan
    | some s => PRes.divSqrt (n * s - x.sum * y.sum) rad

/-- The numeric vector of a column as `calculateCorrelation` builds it:
`data.map(row => row[col]).filter(val => !isNaN(val))` — each column filtered
independently, keeping the values that coerce numerically. -/
def colData (data : List Row) (c : String) : List ℚ :=
  (data.map (fun r => getCell r c)).filterMap jsToNumOpt

/-- `calculateCorrelation`: the matrix over the listed columns, positionally
indexed; the diagonal (`i === j`) is the literal `1`, off-diagonal entries are
`pearsonCorrelation` of the two independently filtered columns. -/
def calculateCorrelation (data : List Row) (columns : List String) :
    List (List PRes) :=
  (List.range columns.length).map (fun i =>
    (List.range columns.length).map (fun j =>
      if i = j then PRes.val 1
      else pearsonCorrelation (colData data (columns.getD i ""))
        (colData data (columns.getD j ""))))

theorem zip_mul_sum_comm (x : List ℚ) :
    ∀ y : List ℚ, ((x.zip y).map (fun p => p.1 * p.2)).sum
      = ((y.zip x).map (fun p => p.1 * p.2)).sum := by
  induction x with
  | nil => intro y; cases y <;> simp
  | cons a x' ih =>
      intro y
      cases y with
      | nil => simp
      | cons b y' => simp [ih y', mul_comm]

theorem pearson_symm (x y : List ℚ) (h : x.length = y.length) :
    pearsonCorrelation x y = pearsonCorrelation y x := by
  have hrad : pearsonRadicand x y = pearsonRadicand y x := by
    unfold pearsonRadicand
    rw [h]
    ring
  have hxy : sumXYjs x y = sumXYjs y x := by
    unfold sumXYjs
    rw [h]
    simp [zip_mul_sum_comm]
  unfold pearsonCorrelation
  rw [hrad, hxy, h]
  by_cases h0 : pearsonRadicand y x = 0
  · simp [h0]
  · by_cases hneg : pearsonRadicand y x < 0
    · simp [h0, hneg]
    · cases hs : sumXYjs y x with
      | none => simp [h0, hneg, hs]
      | some s =>
          simp only [h0, if_false, hneg, hs]
          congr 1
          ring

theorem range_map_getD {α : Type} (n i : ℕ) (f : ℕ → α) (d : α) (h : i < n) :
    (((List.range n).map f).getD i d) = f i := by
  rw [List.getD_eq_getElem?_getD, List.getElem?_map, List.getElem?_range h]
  rfl

/-- Claim C2 (amended): the correlation matrix has diagonal entries exactly 1
for every table and column list; and it is symmetric provided every listed
column retains the same number of rows after the per-column numeric filtering
(in particular whenever no value fails numeric coercion).  When the filtered
columns have different lengths the misaligned indexing makes one direction
`NaN` and symmetry can fail. -/
theorem correlation_diag_and_symm (data : List Row) (columns : List String)
    (hlen : ∀ c1 ∈ columns, ∀ c2 ∈ columns,
      (colData data c1).length = (colData data c2).length) :
    (∀ i, i < columns.length →
      (((calculateCorrelation data columns).getD i []).getD i PRes.nan)
        = PRes.val 1) ∧
    (∀ i j, i < columns.length → j < columns.length →
      (((calculateCorrelation data columns).getD i []).getD j PRes.nan)
        = (((calculateCorrelation data columns).getD j []).getD i PRes.nan)) := by
  constructor
  · intro i hi
    unfold calculateCorrelation
    rw [range_map_getD _ _ _ _ hi, range_map_getD _ _ _ _ hi]
    simp
  · intro i j hi hj
    unfold calculateCorrelation
    rw [range_map_getD _ _ _ _ hi, range_map_getD _ _ _ _ hj,
      range_map_getD _ _ _ _ hj, range_map_getD _ _ _ _ hi]
    by_cases hij : i = j
    · simp [hij]
    · rw [if_neg hij, if_neg (fun hc => hij hc.symm)]
      refine pearson_symm _ _ ?_
      have hmi : columns.getD i "" ∈ columns := by
        rw [List.getD_eq_getElem?_getD, List.getElem?_eq_getElem hi]
        exact List.getElem_mem hi
      have hmj : columns.getD j "" ∈ columns := by
        rw [List.getD_eq_getElem?_getD, List.getElem?_eq_getElem hj]
        exact List.getElem_mem hj
      exact hlen _ hmi _ hmj

theorem correlation_diag_and_symm_witness :
    (∀ i, i < (["a", "b"] : List String).length →
      (((calculateCorrelation
          [[("a", Cell.num 1), ("b", Cell.num 2)],
           [("a", Cell.num 3), ("b", Cell.num 5)]] ["a", "b"]).getD i []).getD i
            PRes.nan) = PRes.val 1) ∧
    (∀ i j, i < (["a", "b"] : List String).length →
      j < (["a", "b"] : List String).length →
      (((calculateCorrelation
          [[("a", Cell.num 1), ("b", Cell.num 2)],
           [("a", Cell.num 3), ("b", Cell.num 5)]] ["a", "b"]).getD i []).getD j
            PRes.nan)
        = (((calculateCorrelation
          [[("a", Cell.num 1), ("b", Cell.num 2)],
           [("a", Cell.num 3), ("b", Cell.num 5)]] ["a", "b"]).getD j []).getD i
            PRes.nan)) :=
  correlation_diag_and_symm
    [[("a", Cell.num 1), ("b", Cell.num 2)], [("a", Cell.num 3), ("b", Cell.num 5)]]
    ["a", "b"]
    (by
      intro c1 h1 c2 h2
      rcases List.mem_pair.mp h1 with rfl | rfl <;>
        rcases List.mem_pair.mp h2 with rfl | rfl <;> rfl)

/-- Claim C2 counterexample: on the two-row table
`[{a: "x", b: 1}, {a: 2, b: 3}]` the per-column filtering keeps different row
counts (`a ↦ [2]`, `b ↦ [1, 3]`), and the code returns `r(a,b) = 0` (its
denominator is 0) but `r(b,a) = NaN` (`y[1]` is `undefined`, the sum is
`NaN`): the matrix is not symmetric. -/
theorem correlation_asymmetry_counterexample :
    (((calculateCorrelation
        [[("a", Cell.str "x"), ("b", Cell.num 1)],
         [("a", Cell.num 2), ("b", Cell.num 3)]] ["a", "b"]).getD 0 []).getD 1
          PRes.nan) = PRes.val 0 ∧
    (((calculateCorrelation
        [[("a", Cell.str "x"), ("b", Cell.num 1)],
         [("a", Cell.num 2), ("b", Cell.num 3)]] ["a", "b"]).getD 1 []).getD 0
          PRes.nan) = PRes.nan ∧
    PRes.val 0 ≠ PRes.nan := by
  have hx2 : jsStringToNumber "x" = none := by decide
  have hab : ¬ (("a" : String) = "b") := by decide
  have hcolA : colData
      [[("a", Cell.str "x"), ("b", Cell.num 1)],
       [("a", Cell.num 2), ("b", Cell.num 3)]] "a" = [2] := by
    simp [colData, getCell, List.filterMap, hx2, jsToNumOpt]
  have hcolB : colData
      [[("a", Cell.str "x"), ("b", Cell.num 1)],
       [("a", Cell.num 2), ("b", Cell.num 3)]] "b" = [1, 3] := by
    simp [colData, getCell, List.filterMap, hab, jsToNumOpt]
  refine ⟨?_, ?_, by simp⟩
  · unfold calculateCorrelation
    rw [range_map_getD _ _ _ _ (by norm_num), range_map_getD _ _ _ _ (by norm_num)]
    rw [if_neg (by norm_num)]
    rw [show (["a", "b"] : List String).getD 0 "" = "a" from rfl,
      show (["a", "b"] : List String).getD 1 "" = "b" from rfl, hcolA, hcolB]
    norm_num [pearsonCorrelation, pearsonRadicand]
  · unfold calculateCorrelation
    rw [range_map_getD _ _ _ _ (by norm_num), range_map_getD _ _ _ _ (by norm_num)]
    rw [if_neg (by norm_num)]
    rw [show (["a", "b"] : List String).getD 0 "" = "a" from rfl,
      show (["a", "b"] : List String).getD 1 "" = "b" from rfl, hcolA, hcolB]
    norm_num [pearsonCorrelation, pearsonRadicand, sumXYjs]

/-- Claim C8: whenever the Pearson denominator
`sqrt((nΣx²−(Σx)²)(nΣy²−(Σy)²))` is 0 — that is, the radicand is 0, as for a
constant column — the code returns the coefficient 0 through the explicit
`denominator === 0` branch: never `NaN` or `undefined`, and no error. -/
theorem pearson_zero_denominator (x y : List ℚ)
    (h : pearsonRadicand x y = 0) :
    pearsonCorrelation x y = PRes.val 0 := by
  unfold pearsonCorrelation
  simp [h]

theorem pearson_zero_denominator_witness :
    pearsonCorrelation [2, 2] [1, 3] = PRes.val 0 :=
  pearson_zero_denominator [2, 2] [1, 3] (by norm_num [pearsonRadicand])

/-- A JavaScript number that may be an infinity or `NaN`, for the places where
the source divides without guarding the denominator. -/
inductive JSv where
  | fin : ℚ → JSv
  | posInf : JSv
  | negInf : JSv
  | nan : JSv
deriving DecidableEq, Repr

/-- JavaScript division `a / b` on finite operands: `0/0 = NaN`, `±a/0 = ±∞`,
otherwise finite. -/
def jsDiv (a b : ℚ) : JSv :=
  if b = 0 then
    if a = 0 then JSv.nan
    else if a > 0 then JSv.posInf
    else JSv.negInf
  else JSv.fin (a / b)

/-- JavaScript `1 - v` on an extended number. -/
def jsOneSub : JSv → JSv
  | JSv.fin q => JSv.fin (1 - q)
  | JSv.posInf => JSv.negInf
  | JSv.negInf => JSv.posInf
  | JSv.nan => JSv.nan

/-- `transpose` of the chart module:
`matrix[0].map((_, i) => matrix.map(row => row[i]))`.  Out-of-range `row[i]`
(ragged input, never produced by `multipleLinearRegression`) is modelled with
default `0`. -/
def transpose (matrix : List (List ℚ)) : List (List ℚ) :=
  (matrix.headD []).mapIdx (fun i _ => matrix.map (fun row => row.getD i 0))

/-- `row.reduce((sum, val, i) => sum + val * col[i], 0)`: the index-paired dot
product driven by the first list.  All uses in the regression pipeline pair
lists of equal length; an out-of-range `col[i]` (which would be `NaN` in
JavaScript) is modelled as `0` and never reached in the verified statements. -/
def dotJS : List ℚ → List ℚ → ℚ
  | [], _ => 0
  | v :: r, c => v * c.headD 0 + dotJS r c.tail

/-- `matrixMultiply` of the chart module. -/
def matrixMultiply (a b : List (List ℚ)) : List (List ℚ) :=
  a.map (fun row => (transpose b).map (fun col => dotJS row col))

/-- `inverseMatrix` of the chart module: the closed-form 2×2 inverse, reading
the four entries positionally.  A singular matrix divides by zero — JavaScript
Infinities, modelled by the `ℚ` convention `q / 0 = 0`; every verified use has
a nonzero determinant. -/
def inverseMatrix (matrix : List (List ℚ)) : List (List ℚ) :=
  let a := (matrix.getD 0 []).getD 0 0
  let b := (matrix.getD 0 []).getD 1 0
  let c := (matrix.getD 1 []).getD 0 0
  let d := (matrix.getD 1 []).getD 1 0
  let det := a * d - b * c
  [[d / det, -b / det], [-c / det, a / det]]

/-- `y.reduce((sum, yi, i) => sum + (yi - predictions[i])**2, 0)`. -/
def ssRes : List ℚ → List ℚ → ℚ
  | [], _ => 0
  | yi :: t, p => (yi - p.headD 0) ^ 2 + ssRes t p.tail

/-- The record returned by `multipleLinearRegression`.  `rSquared` is kept as
a rational: its computation `1 - SSres/SStot` is division-safe in every
verified statement (`SStot > 0`); `adjustedRSquared` keeps the JavaScript
extended-number semantics because its denominator `n - p - 1` is exactly what
claim C6 is about. -/
structure RegressionResult where
  coefficients : List ℚ
  intercept : ℚ
  rSquared : ℚ
  adjustedRSquared : JSv
  predictions : List ℚ
deriving Repr

/-- `multipleLinearRegression` of the chart module: normal-equation solve with
the 2×2 inverse, predictions from the full coefficient vector, `R²`, and the
unguarded adjusted `R²`. -/
def multipleLinearRegression (X : List (List ℚ)) (y : List ℚ) :
    RegressionResult :=
  let n := X.length
  let p := (X.headD []).length
  let X_aug := X.map (fun row => 1 :: row)
  let X_t := transpose X_aug
  let X_t_X := matrixMultiply X_t X_aug
  let X_t_X_inv := inverseMatrix X_t_X
  let X_t_y := matrixMultiply X_t (y.map (fun yi => [yi]))
  let coefficients := (matrixMultiply X_t_X_inv X_t_y).map (fun row => row.headD 0)
  let predictions := X_aug.map (fun row => dotJS row coefficients)
  let yMean := y.sum / (n : ℚ)
  let totalSS := (y.map (fun yi => (yi - yMean) ^ 2)).sum
  let rSquared := 1 - ssRes y predictions / totalSS
  { coefficients := coefficients.drop 1
    intercept := coefficients.headD 0
    rSquared := rSquared
    adjustedRSquared :=
      jsOneSub (jsDiv ((1 - rSquared) * ((n : ℚ) - 1)) ((n : ℚ) - (p : ℚ) - 1))
    predictions := predictions }

/-- Claim C6: evaluation at a failing input.  With `n = 2` rows and `p = 1`
independent variable, `n − p − 1 = 0`; the code does not raise — it computes
`1 − ((1−R²)(n−1)/0)`, which for this exact fit is `1 − 0/0 = NaN`, silently
returned in a complete result (the fit itself is exact: coefficients `[2]`,
intercept `3`, `R² = 1`). -/
theorem regression_adjusted_silent_nan :
    (multipleLinearRegression [[1], [2]] [5, 7]).adjustedRSquared = JSv.nan ∧
    (multipleLinearRegression [[1], [2]] [5, 7]).coefficients = [2] ∧
    (multipleLinearRegression [[1], [2]] [5, 7]).intercept = 3 ∧
    (multipleLinearRegression [[1], [2]] [5, 7]).rSquared = 1 := by
  norm_num [multipleLinearRegression, transpose, matrixMultiply, inverseMatrix,
    dotJS, ssRes, jsDiv, jsOneSub, List.mapIdx_cons]

theorem dot_replicate_ones (l : List ℚ) :
    ∀ n, l.length = n → dotJS (List.replicate n 1) l = l.sum := by
  induction l with
  | nil => intro n hn; subst hn; simp [dotJS]
  | cons a t ih =>
      intro n hn
      subst hn
      rw [List.length_cons, List.replicate_succ]
      simp only [dotJS, List.headD_cons, List.tail_cons]
      rw [ih t.length rfl]
      simp

theorem dot_ones_right (l : List ℚ) :
    dotJS l (List.replicate l.length 1) = l.sum := by
  induction l with
  | nil => simp [dotJS]
  | cons a t ih =>
      rw [List.length_cons, List.replicate_succ]
      simp only [dotJS, List.headD_cons, List.tail_cons]
      rw [ih]
      simp

theorem dot_self_sq (l : List ℚ) :
    dotJS l l = (l.map (fun v => v * v)).sum := by
  induction l with
  | nil => simp [dotJS]
  | cons a t ih =>
      simp only [dotJS, List.headD_cons, List.tail_cons, List.map_cons,
        List.sum_cons]
      rw [ih]

theorem dot_map_self (l : List ℚ) (g : ℚ → ℚ) :
    dotJS l (l.map g) = (l.map (fun x => x * g x)).sum := by
  induction l with
  | nil => simp [dotJS]
  | cons a t ih =>
      simp only [dotJS, List.map_cons, List.headD_cons, List.tail_cons,
        List.sum_cons]
      rw [ih]

theorem ssRes_self (l : List ℚ) : ssRes l l = 0 := by
  induction l with
  | nil => simp [ssRes]
  | cons a t ih => simp [ssRes, ih]

theorem sq_dev_sum (l : List ℚ) (x : ℚ) :
    (l.map (fun v => (v - x) ^ 2)).sum
      = (l.map (fun v => v * v)).sum - 2 * x * l.sum + (l.length : ℚ) * x ^ 2 := by
  induction l with
  | nil => simp
  | cons a t ih =>
      simp only [List.map_cons, List.sum_cons, List.length_cons, ih]
      push_cast
      ring

theorem sq_dev_sum_nonneg (l : List ℚ) (x : ℚ) :
    0 ≤ (l.map (fun v => (v - x) ^ 2)).sum := by
  induction l with
  | nil => simp
  | cons a t ih =>
      simp only [List.map_cons, List.sum_cons]
      exact add_nonneg (sq_nonneg _) ih

theorem sq_dev_sum_pos (l : List ℚ) (x v : ℚ) (hv : v ∈ l) (hne : v ≠ x) :
    0 < (l.map (fun w => (w - x) ^ 2)).sum := by
  induction l with
  | nil => simp at hv
  | cons a t ih =>
      simp only [List.map_cons, List.sum_cons]
      rcases List.mem_cons.mp hv with rfl | hv'
      · have hpos : 0 < (v - x) ^ 2 :=
          lt_of_le_of_ne (sq_nonneg _)
            (Ne.symm (pow_ne_zero 2 (sub_ne_zero.mpr hne)))
        exact add_pos_of_pos_of_nonneg hpos (sq_dev_sum_nonneg t x)
      · exact add_pos_of_nonneg_of_pos (sq_nonneg _) (ih hv')

theorem quadDet_cons (x : ℚ) (l : List ℚ) :
    ((x :: l).length : ℚ) * ((x :: l).map (fun v => v * v)).sum
        - (x :: l).sum * (x :: l).sum
      = ((l.length : ℚ) * (l.map (fun v => v * v)).sum - l.sum * l.sum)
        + (l.map (fun v => (v - x) ^ 2)).sum := by
  rw [sq_dev_sum]
  simp only [List.length_cons, List.map_cons, List.sum_cons]
  push_cast
  ring

theorem quadDet_nonneg (l : List ℚ) :
    0 ≤ (l.length : ℚ) * (l.map (fun v => v * v)).sum - l.sum * l.sum := by
  induction l with
  | nil => simp
  | cons x t ih =>
      rw [quadDet_cons]
      exact add_nonneg ih (sq_dev_sum_nonneg t x)

theorem quadDet_pos (l : List ℚ) (a b : ℚ) (ha : a ∈ l) (hb : b ∈ l)
    (hab : a ≠ b) :
    0 < (l.length : ℚ) * (l.map (fun v => v * v)).sum - l.sum * l.sum := by
  induction l with
  | nil => simp at ha
  | cons x t ih =>
      rw [quadDet_cons]
      by_cases hex : ∃ v ∈ t, v ≠ x
      · obtain ⟨v, hv, hvx⟩ := hex
        exact add_pos_of_nonneg_of_pos (quadDet_nonneg t)
          (sq_dev_sum_pos t x v hv hvx)
      · push_neg at hex
        have hax : a = x := by
          rcases List.mem_cons.mp ha with rfl | h
          · rfl
          · exact hex a h
        have hbx : b = x := by
          rcases List.mem_cons.mp hb with rfl | h
          · rfl
          · exact hex b h
        exact absurd (hax.trans hbx.symm) hab

theorem map_aug (l : List ℚ) :
    (l.map (fun x => [x])).map (fun row => 1 :: row) = l.map (fun x => [1, x]) := by
  simp [List.map_map]

theorem transpose_aug (x₀ : ℚ) (xs' : List ℚ) :
    transpose ((x₀ :: xs').map (fun x => [1, x]))
      = [List.replicate (x₀ :: xs').length 1, x₀ :: xs'] := by
  unfold transpose
  rw [show ((x₀ :: xs').map (fun x => [1, x])).headD [] = [1, x₀] from rfl]
  simp only [List.mapIdx_cons, List.mapIdx_nil, List.map_map]
  simp only [List.cons.injEq, and_true]
  refine ⟨?_, ?_⟩
  · simp only [Function.comp_def, List.getD_cons_zero]
    exact List.map_const' _ 1
  · simp only [Function.comp_def]
    rw [show (fun x : ℚ => [1, x].getD (0 + 1) 0) = fun x : ℚ => x from rfl]
    exact List.map_id' _

theorem transpose_ycol (ys : List ℚ) (h : ys ≠ []) :
    transpose (ys.map (fun yi => [yi])) = [ys] := by
  obtain ⟨y₀, t, rfl⟩ : ∃ u v, ys = u :: v := by
    cases ys with
    | nil => exact absurd rfl h
    | cons u v => exact ⟨u, v, rfl⟩
  unfold transpose
  rw [show ((y₀ :: t).map (fun yi => [yi])).headD [] = [y₀] from rfl]
  simp only [List.mapIdx_cons, List.mapIdx_nil, List.map_map]
  simp only [List.cons.injEq, and_true]
  simp only [Function.comp_def, List.getD_cons_zero]
  exact List.map_id' _

theorem matmul_Xt_Xaug (x₀ : ℚ) (xs' : List ℚ) :
    matrixMultiply [List.replicate (x₀ :: xs').length 1, x₀ :: xs']
        ((x₀ :: xs').map (fun x => [1, x]))
      = [[((x₀ :: xs').length : ℚ), (x₀ :: xs').sum],
         [(x₀ :: xs').sum, ((x₀ :: xs').map (fun v => v * v)).sum]] := by
  unfold matrixMultiply
  rw [transpose_aug]
  simp only [List.map_cons, List.map_nil]
  rw [dot_replicate_ones (List.replicate (x₀ :: xs').length 1)
      (x₀ :: xs').length (List.length_replicate _ _),
    dot_replicate_ones (x₀ :: xs') (x₀ :: xs').length rfl,
    dot_ones_right, dot_self_sq]
  rw [List.sum_replicate]
  simp

theorem matmul_Xt_ycol (x₀ : ℚ) (xs' : List ℚ) (g : ℚ → ℚ) :
    matrixMultiply [List.replicate (x₀ :: xs').length 1, x₀ :: xs']
        (((x₀ :: xs').map g).map (fun yi => [yi]))
      = [[((x₀ :: xs').map g).sum], [((x₀ :: xs').map (fun x => x * g x)).sum]] := by
  unfold matrixMultiply
  rw [transpose_ycol _ (by simp)]
  simp only [List.map_cons, List.map_nil]
  rw [show (g x₀ :: List.map g xs') = List.map g (x₀ :: xs') from rfl,
    show (x₀ * g x₀ :: List.map (fun x => x * g x) xs')
      = List.map (fun x => x * g x) (x₀ :: xs') from rfl]
  rw [dot_replicate_ones ((x₀ :: xs').map g) (x₀ :: xs').length (by simp),
    dot_map_self]

theorem sum_map_lin (l : List ℚ) :
    (l.map (fun x => 2 * x + 3)).sum = 2 * l.sum + 3 * (l.length : ℚ) := by
  induction l with
  | nil => simp
  | cons a t ih =>
      simp only [List.map_cons, List.sum_cons, List.length_cons, ih]
      push_cast
      ring

theorem sum_map_mul_lin (l : List ℚ) :
    (l.map (fun x => x * (2 * x + 3))).sum
      = 2 * (l.map (fun v => v * v)).sum + 3 * l.sum := by
  induction l with
  | nil => simp
  | cons a t ih =>
      simp only [List.map_cons, List.sum_cons, ih]
      ring

theorem ssRes_map (g h : ℚ → ℚ) (l : List ℚ) :
    ssRes (l.map g) (l.map h) = (l.map (fun x => (g x - h x) ^ 2)).sum := by
  induction l with
  | nil => simp [ssRes]
  | cons a t ih =>
      simp only [List.map_cons, ssRes, List.headD_cons, List.tail_cons,
        List.sum_cons, ih]

theorem beta0_eval (n S1 S2 : ℚ) (hD : n * S2 - S1 * S1 ≠ 0) :
    S2 / (n * S2 - S1 * S1) * (2 * S1 + 3 * n)
      + (-S1 / (n * S2 - S1 * S1) * (2 * S2 + 3 * S1) + 0) = 3 := by
  field_simp
  ring

theorem beta1_eval (n S1 S2 : ℚ) (hD : n * S2 - S1 * S1 ≠ 0) :
    -S1 / (n * S2 - S1 * S1) * (2 * S1 + 3 * n)
      + (n / (n * S2 - S1 * S1) * (2 * S2 + 3 * S1) + 0) = 2 := by
  field_simp
  ring

theorem coef_eval (x₀ : ℚ) (xs' : List ℚ)
    (hD0 : ((x₀ :: xs').length : ℚ) * ((x₀ :: xs').map (fun v => v * v)).sum
        - (x₀ :: xs').sum * (x₀ :: xs').sum ≠ 0) :
    (matrixMultiply
        (inverseMatrix (matrixMultiply
          (transpose (((x₀ :: xs').map (fun x => [x])).map (fun row => 1 :: row)))
          (((x₀ :: xs').map (fun x => [x])).map (fun row => 1 :: row))))
        (matrixMultiply
          (transpose (((x₀ :: xs').map (fun x => [x])).map (fun row => 1 :: row)))
          (((x₀ :: xs').map (fun x => 2 * x + 3)).map (fun yi => [yi])))).map
      (fun row => row.headD 0) = [3, 2] := by
  rw [map_aug, transpose_aug, matmul_Xt_Xaug,
    matmul_Xt_ycol x₀ xs' (fun x => 2 * x + 3)]
  simp only [inverseMatrix, matrixMultiply, transpose, List.getD_cons_zero,
    List.getD_cons_succ, List.headD_cons, List.mapIdx_cons, List.mapIdx_nil,
    List.map_cons, List.map_nil, dotJS, List.headD_nil, List.tail_cons,
    List.tail_nil]
  rw [show ((2 * x₀ + 3) :: List.map (fun x => 2 * x + 3) xs')
        = List.map (fun x => 2 * x + 3) (x₀ :: xs') from rfl,
    show (x₀ * (2 * x₀ + 3) :: List.map (fun x => x * (2 * x + 3)) xs')
        = List.map (fun x => x * (2 * x + 3)) (x₀ :: xs') from rfl,
    show (x₀ * x₀ :: List.map (fun v => v * v) xs')
        = List.map (fun v => v * v) (x₀ :: xs') from rfl]
  rw [sum_map_lin, sum_map_mul_lin]
  simp only [List.cons.injEq, and_true]
  exact ⟨beta0_eval _ _ _ hD0, beta1_eval _ _ _ hD0⟩

/-- Claim C3: fitting `y = 2x + 3` exactly on at least 3 rows with a single
independent column containing at least two distinct values yields coefficients
`[2]`, intercept `3`, and `R² = 1` (in the exact-rational model the values are
reached exactly, which is the strongest form of "approximately"). -/
theorem regression_exact_fit (xs : List ℚ) (a b : ℚ)
    (hn : 3 ≤ xs.length) (ha : a ∈ xs) (hb : b ∈ xs) (hab : a ≠ b) :
    (multipleLinearRegression (xs.map (fun x => [x]))
        (xs.map (fun x => 2 * x + 3))).coefficients = [2] ∧
    (multipleLinearRegression (xs.map (fun x => [x]))
        (xs.map (fun x => 2 * x + 3))).intercept = 3 ∧
    (multipleLinearRegression (xs.map (fun x => [x]))
        (xs.map (fun x => 2 * x + 3))).rSquared = 1 := by
  obtain ⟨x₀, xs', rfl⟩ : ∃ u v, xs = u :: v := by
    cases xs with
    | nil => simp at hn
    | cons u v => exact ⟨u, v, rfl⟩
  have hD : 0 < ((x₀ :: xs').length : ℚ) * ((x₀ :: xs').map (fun v => v * v)).sum
      - (x₀ :: xs').sum * (x₀ :: xs').sum :=
    quadDet_pos (x₀ :: xs') a b ha hb hab
  have hD0 : ((x₀ :: xs').length : ℚ) * ((x₀ :: xs').map (fun v => v * v)).sum
      - (x₀ :: xs').sum * (x₀ :: xs').sum ≠ 0 := ne_of_gt hD
  simp only [multipleLinearRegression]
  rw [coef_eval x₀ xs' hD0]
  refine ⟨rfl, rfl, ?_⟩
  rw [map_aug]
  rw [show ((x₀ :: xs').map (fun x => [1, x])).map (fun row => dotJS row [3, 2])
      = (x₀ :: xs').map (fun x => dotJS [1, x] [3, 2]) from by
    rw [List.map_map]; rfl]
  rw [show ((x₀ :: xs').map (fun x => dotJS [1, x] [3, 2]))
      = (x₀ :: xs').map (fun x => 1 * 3 + (x * 2 + 0)) from rfl]
  rw [ssRes_map (fun x => 2 * x + 3) (fun x => 1 * 3 + (x * 2 + 0)) (x₀ :: xs')]
  rw [List.map_congr_left (l := x₀ :: xs')
    (f := fun x => (2 * x + 3 - (1 * 3 + (x * 2 + 0))) ^ 2) (g := fun _ => (0 : ℚ))
    (fun x _ => by ring)]
  simp

theorem regression_exact_fit_witness :
    (multipleLinearRegression (([0, 1, 2] : List ℚ).map (fun x => [x]))
        (([0, 1, 2] : List ℚ).map (fun x => 2 * x + 3))).coefficients = [2] ∧
    (multipleLinearRegression (([0, 1, 2] : List ℚ).map (fun x => [x]))
        (([0, 1, 2] : List ℚ).map (fun x => 2 * x + 3))).intercept = 3 ∧
    (multipleLinearRegression (([0, 1, 2] : List ℚ).map (fun x => [x]))
        (([0, 1, 2] : List ℚ).map (fun x => 2 * x + 3))).rSquared = 1 :=
  regression_exact_fit [0, 1, 2] 0 1 (by norm_num) (by norm_num) (by norm_num)
    (by norm_num)

/-- JavaScript `Math.round`: round half toward positive infinity,
`⌊q + 1/2⌋`. -/
def jsRound (q : ℚ) : ℤ :=
  ⌊q + 1 / 2⌋

/-- A cell counted as null by `analyzeColumn`:
`val === null || val === undefined || val === ''`. -/
def isEmptyVal (c : Cell) : Bool :=
  match c with
  | Cell.empty => true
  | Cell.str s => s == ""
  | Cell.num _ => false

/-- The summary returned by `analyzeFileData`.  The per-column analyses feed
the quality score only through their null counts; the other per-column
statistics are not consulted by the score and are omitted from the record. -/
structure FileAnalysis where
  rowCount : ℕ
  columnCount : ℕ
  qualityScore : ℤ
deriving DecidableEq, Repr

/-- The quality-score loop of `analyzeFileData`: starting from 100, each
column whose null percentage exceeds 5 subtracts `min(20, nullPercentage)`.
`nullCount` is `columnData.length - nonNullValues.length` as in
`analyzeColumn`. -/
def qualityAfter (headers : List Cell) (rows : List (List Cell)) : ℚ :=
  (List.range headers.length).foldl (fun q i =>
    let columnData := rows.map (fun row => row.getD i Cell.empty)
    let nullCount :=
      columnData.length - (columnData.filter (fun v => !(isEmptyVal v))).length
    let nullPercentage : ℚ := (nullCount : ℚ) / (rows.length : ℚ) * 100
    if nullPercentage > 5 then q - min 20 nullPercentage else q) 100

/-- `analyzeFileData` of `fileAnalysis.js`: the first row is the header; the
quality score is the loop result clamped at 0 and rounded.  An empty input
throws.  (With zero data rows the null percentage is `0/0`; JavaScript's
`NaN > 5` is false, and the model's `0 > 5` is equally false, so no column
changes the score.) -/
def analyzeFileData (data : List (List Cell)) : Except String FileAnalysis :=
  match data with
  | [] => Except.error "No data provided for analysis"
  | headers :: rows =>
      Except.ok
        { rowCount := rows.length
          columnCount := headers.length
          qualityScore := max 0 (jsRound (qualityAfter headers rows)) }

theorem quality_fold_le (l : List ℕ) (step : ℚ → ℕ → ℚ)
    (hstep : ∀ q i, step q i ≤ q) :
    ∀ q0 : ℚ, l.foldl step q0 ≤ q0 := by
  induction l with
  | nil => intro q0; simp
  | cons i t ih =>
      intro q0
      rw [List.foldl_cons]
      exact le_trans (ih (step q0 i)) (hstep q0 i)

theorem qualityAfter_le (headers : List Cell) (rows : List (List Cell)) :
    qualityAfter headers rows ≤ 100 := by
  unfold qualityAfter
  refine quality_fold_le _ _ (fun q i => ?_) 100
  dsimp only
  split
  · next hp =>
      have hmin : (0 : ℚ) < min 20
          ((((rows.map (fun row => row.getD i Cell.empty)).length
            - ((rows.map (fun row => row.getD i Cell.empty)).filter
                (fun v => !(isEmptyVal v))).length : ℕ) : ℚ)
            / (rows.length : ℚ) * 100) :=
        lt_min (by norm_num) (lt_trans (by norm_num) hp)
      linarith
  · exact le_refl q

/-- Claim C10: for every non-empty input table, `analyzeFileData` returns an
integer quality score (the model's `ℤ`, produced by `Math.round`) between 0
and 100 inclusive: the score starts at 100, only decreases (each offending
column subtracts the positive amount `min(20, nullPercentage)`), and is
finally clamped at 0 and rounded. -/
theorem analyzeFileData_quality_bounds (data : List (List Cell))
    (r : FileAnalysis) (h : analyzeFileData data = Except.ok r) :
    0 ≤ r.qualityScore ∧ r.qualityScore ≤ 100 := by
  cases data with
  | nil => simp [analyzeFileData] at h
  | cons headers rows =>
      simp only [analyzeFileData, Except.ok.injEq] at h
      subst h
      refine ⟨le_max_left 0 _, max_le (by norm_num) ?_⟩
      have hq := qualityAfter_le headers rows
      have hfl := Int.floor_le (qualityAfter headers rows + 1 / 2)
      have hlt : ((jsRound (qualityAfter headers rows) : ℤ) : ℚ) < 101 := by
        unfold jsRound
        linarith
  
      have hlt2 : jsRound (qualityAfter headers rows) < 101 := by exact_mod_cast hlt
      omega

theorem analyzeFileData_quality_bounds_witness :
    0 ≤ (⟨1, 1, 100⟩ : FileAnalysis).qualityScore ∧
    (⟨1, 1, 100⟩ : FileAnalysis).qualityScore ≤ 100 :=
  analyzeFileData_quality_bounds [[Cell.str "h"], [Cell.num 1]] ⟨1, 1, 100⟩
    (by
      have hf : ⌊(100 : ℚ) + 1 / 2⌋ = (100 : ℤ) := by
        rw [Int.floor_eq_iff]
        norm_num
      have hr : List.range 1 = [0] := rfl
      norm_num [analyzeFileData, qualityAfter, jsRound, isEmptyVal, hr,
        List.foldl_cons, List.foldl_nil, List.filter, hf])
